import Mathlib

/-!
# schedulerGo: the five HTTP handlers of `main.go` over an in-memory collection

The handlers of `src/main.go` are embedded as pure functions from the `users`
collection and the request (path parameters, bound body) to an `Outcome`: the
collection afterwards, the storage calls issued, and the JSON response.

Outside the repository, and modelled here from their documented behaviour:
* `strconv.Atoi` (optional sign, one or more ASCII digits, 64-bit range);
* the MongoDB collection calls `Find`, `FindOne` and `FindOneAndUpdate` with
  `SetUpsert(true)` and `SetReturnDocument(After)`, on documents of the layout
  `{name: string, tasks: {string: [string]}}` (`tasks` possibly absent), with
  `$set` on the paths the handlers issue; an empty `$set` changes nothing.
  Connectivity and serialisation faults are outside the model.
-/

namespace SchedulerGo

/-! ## Go values -/

/-- A Go `[]string`; `none` is the nil slice (BSON and JSON `null`). -/
abbrev StrSlice := Option (List String)

/-- The entries of a non-nil `map[string][]string`, read with `List.lookup`. -/
abbrev TaskMap := List (String × StrSlice)

/-- Go `type User struct`; `Tasks = none` is the nil map. -/
structure User where
  Name : String
  Tasks : Option TaskMap
deriving DecidableEq

/-- Go `type UpdateTasksRequest struct` after JSON binding: a missing `name`
is the empty string, a missing `tasks` the nil map. -/
structure UpdateTasksRequest where
  Name : String
  Tasks : Option TaskMap
deriving DecidableEq

/-- Go `type UpdateDayTasksRequest struct` after JSON binding. -/
structure UpdateDayTasksRequest where
  Tasks : StrSlice
deriving DecidableEq

/-- Go map read `m[k]` on a `map[string][]string`: the nil slice when the map
is nil, the key is absent, or the stored value is nil. -/
def mapIndex (m : Option TaskMap) (k : String) : StrSlice :=
  match m with
  | none => none
  | some kvs =>
    match kvs.lookup k with
    | some v => v
    | none => none

/-- Assignment `m[k] = v` on an association list, also the effect of `$set`
on one key of a sub-document: an existing key keeps its place and takes the
new value, a new key is appended. -/
def assocSet {β : Type} : List (String × β) → String → β → List (String × β)
  | [], k, v => [(k, v)]
  | (k', v') :: rest, k, v =>
    if k' = k then (k, v) :: rest else (k', v') :: assocSet rest k v

/-! ## `strconv.Atoi` -/

/-- The value of an ASCII decimal digit. -/
def digitVal (c : Char) : Option Nat :=
  if '0' ≤ c ∧ c ≤ '9' then some (c.toNat - '0'.toNat) else none

/-- The digit loop of `strconv`: `n = n*10 + digit`, failing on a non-digit. -/
def parseDigits : List Char → Nat → Option Nat
  | [], n => some n
  | ch :: rest, n =>
    match digitVal ch with
    | some d => parseDigits rest (n * 10 + d)
    | none => none

/-- Go `strconv.Atoi` with a 64-bit `int`; `none` when `err != nil` (syntax
error: empty, sign only, non-digit; or range error). -/
def Atoi (s : String) : Option Int :=
  match s.data with
  | [] => none
  | c :: cs =>
    let neg := decide (c = '-')
    let digits := if c = '-' ∨ c = '+' then cs else c :: cs
    match digits with
    | [] => none
    | d :: ds =>
      match parseDigits (d :: ds) 0 with
      | none => none
      | some n =>
        let v : Int := if neg then -(n : Int) else (n : Int)
        if -(2 ^ 63 : Int) ≤ v ∧ v ≤ 2 ^ 63 - 1 then some v else none

/-! ## The `users` collection -/

/-- A persisted document `{name, tasks}`; `tasks = none` when the field is
absent. -/
structure Doc where
  name : String
  tasks : Option TaskMap
deriving DecidableEq

/-- The `users` collection, in cursor order. -/
abbrev Collection := List Doc

/-- Decoding a document into `User`: an absent `tasks` leaves the nil map. -/
def Doc.decode (d : Doc) : User := ⟨d.name, d.tasks⟩

/-- A value on the right of `$set`: a `map[string][]string` or a `[]string`. -/
inductive BsonVal where
  | doc (m : Option TaskMap)
  | arr (xs : StrSlice)
deriving DecidableEq

/-- A `bson.M` of field path to value, the operand of `$set`. -/
abbrev SetDoc := List (String × BsonVal)

/-- Errors of the collection calls. -/
inductive MongoErr where
  | ErrNoDocuments
  | WriteError
deriving DecidableEq

/-- A dotted field path cut at every `.`. -/
def splitPath : List Char → List (List Char)
  | [] => [[]]
  | c :: cs =>
    if c = '.' then [] :: splitPath cs
    else
      match splitPath cs with
      | [] => [[c]]
      | seg :: segs => (c :: seg) :: segs

/-- One `$set` entry applied to a document: `tasks` takes a sub-document,
`tasks.<key>` sets one key of the sub-document (created when absent) to an
array; any other path or value shape is outside the document layout. -/
def applySet (d : Doc) (path : String) (v : BsonVal) : Except MongoErr Doc :=
  match (splitPath path.data).map String.mk, v with
  | [field], .doc (some m) =>
    if field = "tasks" then .ok { d with tasks := some m } else .error .WriteError
  | [field, key], .arr (some xs) =>
    if field = "tasks" then
      .ok { d with tasks := some (assocSet (d.tasks.getD []) key (some xs)) }
    else .error .WriteError
  | _, _ => .error .WriteError

/-- All entries of a `$set` operand, in turn; an empty operand changes nothing. -/
def applySets (d : Doc) : SetDoc → Except MongoErr Doc
  | [] => .ok d
  | (path, v) :: rest =>
    match applySet d path v with
    | .ok d' => applySets d' rest
    | .error e => .error e

/-- The call `Find(ctx, bson.M{})` followed by `cursor.All`. -/
def Find (c : Collection) : Except MongoErr (List User) :=
  .ok (c.map Doc.decode)

/-- The call `FindOne(ctx, bson.M{"name": name}).Decode(&user)`: the first
document of that name, `ErrNoDocuments` when there is none. -/
def FindOne (c : Collection) (name : String) : Except MongoErr User :=
  match c.find? (fun d => d.name = name) with
  | some d => .ok d.decode
  | none => .error .ErrNoDocuments

/-- The call `FindOneAndUpdate(ctx, bson.M{"name": name}, bson.M{"$set": set},
opts).Decode(&updatedUser)` with upsert and `ReturnDocument(After)`: the first
document of that name is updated in place; when there is none, a document
holding the filter's `name` is updated and inserted at the end. Returns the
collection and the document after the update. -/
def FindOneAndUpdate (name : String) (set : SetDoc) :
    Collection → Except MongoErr (Collection × User)
  | [] =>
    match applySets ⟨name, none⟩ set with
    | .ok d' => .ok ([d'], d'.decode)
    | .error e => .error e
  | d :: rest =>
    if d.name = name then
      match applySets d set with
      | .ok d' => .ok (d' :: rest, d'.decode)
      | .error e => .error e
    else
      match FindOneAndUpdate name set rest with
      | .ok (rest', u) => .ok (d :: rest', u)
      | .error e => .error e

/-! ## Responses -/

/-- A value placed in a `gin.H`. -/
inductive JVal where
  | int (n : Int)
  | str (s : String)
  | slice (xs : StrSlice)
  | tasks (m : Option TaskMap)
deriving DecidableEq

/-- An entry of a response object: a value or a nested object. -/
inductive Json where
  | val (v : JVal)
  | obj (fields : List (String × JVal))
deriving DecidableEq

/-- The call `c.JSON(status, body)`. -/
structure Response where
  status : Nat
  body : List (String × Json)
deriving DecidableEq

/-- A storage call issued by a handler. -/
inductive StoreOp where
  | Find
  | FindOne (name : String)
  | FindOneAndUpdate (name : String) (set : SetDoc)
deriving DecidableEq

/-- What a handler run produces: the collection afterwards, the storage calls
issued in order, and the response written. -/
structure Outcome where
  store : Collection
  ops : List StoreOp
  resp : Response
deriving DecidableEq

def StatusOK : Nat := 200
def StatusBadRequest : Nat := 400
def StatusNotFound : Nat := 404
def StatusInternalServerError : Nat := 500

/-- The body `gin.H{"error": msg}`. -/
def errorBody (msg : String) : List (String × Json) := [("error", .val (.str msg))]

/-! ## Handlers -/

/-- Handler `getAllUsers` (GET /api/users). -/
def getAllUsers (usersCollection : Collection) : Outcome :=
  match Find usersCollection with
  | .error _ =>
    ⟨usersCollection, [.Find], ⟨StatusInternalServerError, errorBody "服务器内部错误"⟩⟩
  | .ok users =>
    let result := users.foldl
      (fun result user => assocSet result user.Name (Json.obj [("任务", .tasks user.Tasks)])) []
    ⟨usersCollection, [.Find], ⟨StatusOK, result⟩⟩

/-- Handler `updateUserTasks` (POST /api/users); `body = none` when
`ShouldBindJSON` fails. -/
def updateUserTasks (usersCollection : Collection) (body : Option UpdateTasksRequest) : Outcome :=
  match body with
  | none => ⟨usersCollection, [], ⟨StatusBadRequest, errorBody "请求数据格式错误"⟩⟩
  | some req =>
    if req.Name = "" then
      ⟨usersCollection, [], ⟨StatusBadRequest, errorBody "Name字段是必需的"⟩⟩
    else
      let updateData : SetDoc :=
        match req.Tasks with
        | some m => [("tasks", .doc (some m))]
        | none => []
      match FindOneAndUpdate req.Name updateData usersCollection with
      | .error _ =>
        ⟨usersCollection, [.FindOneAndUpdate req.Name updateData],
          ⟨StatusInternalServerError, errorBody "服务器内部错误"⟩⟩
      | .ok (store, updatedUser) =>
        ⟨store, [.FindOneAndUpdate req.Name updateData],
          ⟨StatusOK, [("message", .val (.str "用户数据更新成功")),
            ("user", .obj [("name", .str updatedUser.Name), ("tasks", .tasks updatedUser.Tasks)])]⟩⟩

/-- Handler `getUserTasks` (GET /api/users/:name). -/
def getUserTasks (usersCollection : Collection) (name : String) : Outcome :=
  match FindOne usersCollection name with
  | .error .ErrNoDocuments =>
    ⟨usersCollection, [.FindOne name], ⟨StatusNotFound, errorBody "用户不存在"⟩⟩
  | .error _ =>
    ⟨usersCollection, [.FindOne name], ⟨StatusInternalServerError, errorBody "服务器内部错误"⟩⟩
  | .ok user =>
    ⟨usersCollection, [.FindOne name],
      ⟨StatusOK, [("name", .val (.str user.Name)), ("tasks", .val (.tasks user.Tasks))]⟩⟩

/-- Handler `getUserDayTasks` (GET /api/users/:name/day/:day). -/
def getUserDayTasks (usersCollection : Collection) (name dayStr : String) : Outcome :=
  match Atoi dayStr with
  | none => ⟨usersCollection, [], ⟨StatusBadRequest, errorBody "日期格式错误"⟩⟩
  | some dayNum =>
    if dayNum < 1 ∨ dayNum > 7 then
      ⟨usersCollection, [],
        ⟨StatusBadRequest, errorBody "日期必须在1-7之间（1=周日，7=周六）"⟩⟩
    else
      match FindOne usersCollection name with
      | .error .ErrNoDocuments =>
        ⟨usersCollection, [.FindOne name], ⟨StatusNotFound, errorBody "用户不存在"⟩⟩
      | .error _ =>
        ⟨usersCollection, [.FindOne name],
          ⟨StatusInternalServerError, errorBody "服务器内部错误"⟩⟩
      | .ok user =>
        let dayTasks : StrSlice :=
          match mapIndex user.Tasks dayStr with
          | none => some []
          | some xs => some xs
        ⟨usersCollection, [.FindOne name],
          ⟨StatusOK, [("name", .val (.str user.Name)), ("day", .val (.int dayNum)),
            ("tasks", .val (.slice dayTasks))]⟩⟩

/-- Handler `updateUserDayTasks` (POST /api/users/:name/day/:day); `body = none`
when `ShouldBindJSON` fails. -/
def updateUserDayTasks (usersCollection : Collection) (name dayStr : String)
    (body : Option UpdateDayTasksRequest) : Outcome :=
  match Atoi dayStr with
  | none => ⟨usersCollection, [], ⟨StatusBadRequest, errorBody "日期格式错误"⟩⟩
  | some dayNum =>
    if dayNum < 1 ∨ dayNum > 7 then
      ⟨usersCollection, [],
        ⟨StatusBadRequest, errorBody "日期必须在1-7之间（1=周日，7=周六）"⟩⟩
    else
      match body with
      | none => ⟨usersCollection, [], ⟨StatusBadRequest, errorBody "请求数据格式错误"⟩⟩
      | some req =>
        match req.Tasks with
        | none => ⟨usersCollection, [], ⟨StatusBadRequest, errorBody "tasks字段必须是数组"⟩⟩
        | some tasks =>
          let set : SetDoc := [("tasks." ++ dayStr, .arr (some tasks))]
          match FindOneAndUpdate name set usersCollection with
          | .error _ =>
            ⟨usersCollection, [.FindOneAndUpdate name set],
              ⟨StatusInternalServerError, errorBody "服务器内部错误"⟩⟩
          | .ok (store, updatedUser) =>
            ⟨store, [.FindOneAndUpdate name set],
              ⟨StatusOK, [("message", .val (.str "任务更新成功")),
                ("user", .obj [("name", .str updatedUser.Name), ("day", .int dayNum),
                  ("tasks", .slice (mapIndex updatedUser.Tasks dayStr))])]⟩⟩

/-! ## Observations on a collection -/

/-- The record addressed by `name`: the first document of that name. -/
def recordOf (c : Collection) (name : String) : Option Doc :=
  c.find? (fun d => d.name = name)

/-- The entry at day-key `k` of the record of `name`: `none` when there is no
record, no `tasks` mapping, or no such key. -/
def dayEntry (c : Collection) (name k : String) : Option StrSlice :=
  match recordOf c name with
  | none => none
  | some d =>
    match d.tasks with
    | none => none
    | some m => m.lookup k

/-! ## Closed forms of the updates -/

/-- The effect of `$set: {"tasks": m}` on a document. -/
def setTasks (m : TaskMap) (d : Doc) : Doc := { d with tasks := some m }

/-- The effect of `$set: {"tasks.<k>": xs}` on a document. -/
def setDay (k : String) (xs : List String) (d : Doc) : Doc :=
  { d with tasks := some (assocSet (d.tasks.getD []) k (some xs)) }

/-- The collection after an upsert whose update succeeds as `f`: the first
document of that name is replaced by its update, or the updated
`{name: name}` is appended. -/
def upsert (name : String) (f : Doc → Doc) : Collection → Collection
  | [] => [f ⟨name, none⟩]
  | d :: rest => if d.name = name then f d :: rest else d :: upsert name f rest

/-- The value under `field` of the nested object that a response body holds
under `name`. -/
def entryField (body : List (String × Json)) (name field : String) : Option JVal :=
  match body.lookup name with
  | some (.obj fields) => fields.lookup field
  | _ => none

/-- Every persisted record has a non-empty `name`. -/
def NamesNonEmpty (c : Collection) : Prop := ∀ d ∈ c, d.name ≠ ""

instance (c : Collection) : Decidable (NamesNonEmpty c) :=
  inferInstanceAs (Decidable (∀ d ∈ c, d.name ≠ ""))

/-! ## Association lists, `Atoi` and field paths -/

theorem lookup_assocSet_self {β : Type} (m : List (String × β)) (k : String) (v : β) :
    (assocSet m k v).lookup k = some v := by
  induction m with
  | nil => simp [assocSet, List.lookup]
  | cons p rest ih =>
    obtain ⟨k', v'⟩ := p
    by_cases h : k' = k
    · simp [assocSet, h, List.lookup]
    · have h' : (k == k') = false := by simpa using fun e => h e.symm
      simp [assocSet, h, List.lookup, h', ih]

theorem lookup_assocSet_other {β : Type} (m : List (String × β)) (k j : String) (v : β)
    (hj : j ≠ k) : (assocSet m k v).lookup j = m.lookup j := by
  induction m with
  | nil =>
    have h' : (j == k) = false := by simpa using hj
    simp [assocSet, List.lookup, h']
  | cons p rest ih =>
    obtain ⟨k', v'⟩ := p
    by_cases h : k' = k
    · subst h
      have h' : (j == k') = false := by simpa using hj
      simp [assocSet, List.lookup, h']
    · simp only [assocSet, h, if_false, List.lookup]
      cases hjk : (j == k') <;> simp [ih]

theorem digitVal_dot : digitVal '.' = none := by decide

theorem parseDigits_no_dot (l : List Char) (n m : Nat) (h : parseDigits l n = some m) :
    '.' ∉ l := by
  induction l generalizing n with
  | nil => simp
  | cons c rest ih =>
    unfold parseDigits at h
    cases hd : digitVal c with
    | none => simp [hd] at h
    | some d =>
      simp only [hd] at h
      have hc : c ≠ '.' := by
        intro e; subst e; rw [digitVal_dot] at hd; cases hd
      simp only [List.mem_cons, not_or]
      exact ⟨fun e => hc e.symm, ih _ h⟩

theorem Atoi_no_dot (s : String) (d : Int) (h : Atoi s = some d) : '.' ∉ s.data := by
  unfold Atoi at h
  cases hs : s.data with
  | nil => simp [hs] at h
  | cons c cs =>
    simp only [hs] at h
    by_cases hc : c = '-' ∨ c = '+'
    · simp only [hc, if_true] at h
      cases cs with
      | nil => simp at h
      | cons d0 ds =>
        simp only at h
        cases hp : parseDigits (d0 :: ds) 0 with
        | none => simp [hp] at h
        | some n =>
          have := parseDigits_no_dot _ _ _ hp
          have hc' : c ≠ '.' := by
            rcases hc with e | e <;> (subst e; decide)
          simp only [List.mem_cons, not_or] at this ⊢
          exact ⟨fun e => hc' e.symm, this⟩
    · simp only [hc, if_false] at h
      cases hp : parseDigits (c :: cs) 0 with
      | none => simp [hp] at h
      | some n => exact parseDigits_no_dot _ _ _ hp

theorem splitPath_no_dot (cs : List Char) (h : '.' ∉ cs) : splitPath cs = [cs] := by
  induction cs with
  | nil => rfl
  | cons c rest ih =>
    simp only [List.mem_cons, not_or] at h
    have hc : c ≠ '.' := fun e => h.1 e.symm
    simp [splitPath, hc, ih h.2]

theorem splitPath_tasks (k : String) (h : '.' ∉ k.data) :
    (splitPath ("tasks." ++ k).data).map String.mk = ["tasks", k] := by
  have e : ("tasks." ++ k).data = 't' :: 'a' :: 's' :: 'k' :: 's' :: '.' :: k.data := by
    simp [String.data_append]
  rw [e]
  simp [splitPath, splitPath_no_dot _ h]

theorem applySet_day (d : Doc) (k : String) (xs : List String) (h : '.' ∉ k.data) :
    applySet d ("tasks." ++ k) (.arr (some xs))
      = .ok (setDay k xs d) := by
  unfold applySet
  rw [splitPath_tasks k h]
  simp [setDay]

theorem applySet_tasks (d : Doc) (m : TaskMap) :
    applySet d "tasks" (.doc (some m)) = .ok (setTasks m d) := by
  rfl

theorem FindOneAndUpdate_eq (name : String) (set : SetDoc) (f : Doc → Doc)
    (hf : ∀ d, applySets d set = .ok (f d)) (c : Collection) :
    FindOneAndUpdate name set c
      = .ok (upsert name f c, (f ((recordOf c name).getD ⟨name, none⟩)).decode) := by
  induction c with
  | nil => simp [FindOneAndUpdate, hf, upsert, recordOf]
  | cons d rest ih =>
    by_cases h : d.name = name
    · simp [FindOneAndUpdate, h, hf, upsert, recordOf, List.find?]
    · simp [FindOneAndUpdate, h, ih, upsert, recordOf, List.find?]

theorem recordOf_upsert_self (name : String) (f : Doc → Doc) (hf : ∀ d, (f d).name = d.name)
    (c : Collection) :
    recordOf (upsert name f c) name = some (f ((recordOf c name).getD ⟨name, none⟩)) := by
  induction c with
  | nil => simp [upsert, recordOf, List.find?, hf]
  | cons d rest ih =>
    by_cases h : d.name = name
    · simp [upsert, recordOf, List.find?, h, hf]
    · simp only [recordOf] at ih
      simp [upsert, recordOf, List.find?, h, ih]

theorem recordOf_upsert_other (name n : String) (f : Doc → Doc)
    (hf : ∀ d, (f d).name = d.name) (hn : n ≠ name) (c : Collection) :
    recordOf (upsert name f c) n = recordOf c n := by
  induction c with
  | nil => simp [upsert, recordOf, List.find?, hf, Ne.symm hn]
  | cons d rest ih =>
    by_cases h : d.name = name
    · have hdn : d.name ≠ n := by rw [h]; exact Ne.symm hn
      simp [upsert, recordOf, List.find?, h, hf, Ne.symm hn]
    · simp only [recordOf] at ih
      by_cases h2 : d.name = n
      · simp [upsert, recordOf, List.find?, h, h2, hn]
      · simp [upsert, recordOf, List.find?, h, h2, ih]

/-! ## The updates in closed form -/

theorem recordOf_name (c : Collection) (name : String) (r : Doc)
    (h : recordOf c name = some r) : r.name = name := by
  have := List.find?_some h
  simpa using this

theorem getD_record_name (c : Collection) (name : String) :
    ((recordOf c name).getD ⟨name, none⟩).name = name := by
  cases h : recordOf c name with
  | none => rfl
  | some r => exact recordOf_name c name r h

theorem upsert_absent (name : String) (f : Doc → Doc) (c : Collection)
    (h : recordOf c name = none) : upsert name f c = c ++ [f ⟨name, none⟩] := by
  induction c with
  | nil => rfl
  | cons d rest ih =>
    by_cases hn : d.name = name
    · simp [recordOf, List.find?, hn] at h
    · have h' : recordOf rest name = none := by
        simpa [recordOf, List.find?, hn] using h
      simp [upsert, hn, ih h']

theorem upsert_present_id (name : String) (f : Doc → Doc) (c : Collection) (r : Doc)
    (h : recordOf c name = some r) (hf : f r = r) : upsert name f c = c := by
  induction c with
  | nil => simp [recordOf] at h
  | cons d rest ih =>
    by_cases hn : d.name = name
    · have : d = r := by simpa [recordOf, List.find?, hn] using h
      subst this
      simp [upsert, hn, hf]
    · have h' : recordOf rest name = some r := by
        simpa [recordOf, List.find?, hn] using h
      simp [upsert, hn, ih h']

theorem applySets_day (d : Doc) (dayStr : String) (n : Int) (t : List String)
    (hd : Atoi dayStr = some n) :
    applySets d [("tasks." ++ dayStr, .arr (some t))] = .ok (setDay dayStr t d) := by
  simp [applySets, applySet_day d dayStr t (Atoi_no_dot dayStr n hd)]

theorem mapIndex_setDay (dayStr : String) (t : List String) (d : Doc) :
    mapIndex (setDay dayStr t d).tasks dayStr = some t := by
  simp [mapIndex, setDay, lookup_assocSet_self]

theorem updateUserDayTasks_eq (c : Collection) (name dayStr : String) (d : Int)
    (t : List String) (hd : Atoi dayStr = some d) (h1 : 1 ≤ d) (h7 : d ≤ 7) :
    updateUserDayTasks c name dayStr (some ⟨some t⟩)
      = ⟨upsert name (setDay dayStr t) c,
          [.FindOneAndUpdate name [("tasks." ++ dayStr, .arr (some t))]],
          ⟨StatusOK, [("message", .val (.str "任务更新成功")),
            ("user", .obj [("name", .str name), ("day", .int d),
              ("tasks", .slice (some t))])]⟩⟩ := by
  have hr : ¬ (d < 1 ∨ d > 7) := by omega
  unfold updateUserDayTasks
  simp only [hd, hr, if_false]
  rw [FindOneAndUpdate_eq name _ (setDay dayStr t) (fun x => applySets_day x dayStr d t hd)]
  simp only [Doc.decode, mapIndex_setDay]
  have : (setDay dayStr t ((recordOf c name).getD ⟨name, none⟩)).name = name :=
    getD_record_name c name
  rw [this]

theorem dayEntry_upsert_setDay_other (c : Collection) (name dayStr k : String)
    (t : List String) (hk : k ≠ dayStr) :
    dayEntry (upsert name (setDay dayStr t) c) name k = dayEntry c name k := by
  unfold dayEntry
  rw [recordOf_upsert_self name (setDay dayStr t) (fun _ => rfl)]
  cases h : recordOf c name with
  | none => simp [setDay, lookup_assocSet_other _ _ _ _ hk]
  | some r =>
    cases ht : r.tasks <;> simp [setDay, ht, lookup_assocSet_other _ _ _ _ hk]

theorem getUserDayTasks_eq (c : Collection) (name dayStr : String) (d : Int) (r : Doc)
    (hd : Atoi dayStr = some d) (h1 : 1 ≤ d) (h7 : d ≤ 7) (hr : recordOf c name = some r) :
    getUserDayTasks c name dayStr
      = ⟨c, [.FindOne name],
          ⟨StatusOK, [("name", .val (.str name)), ("day", .val (.int d)),
            ("tasks", .val (.slice (some ((mapIndex r.tasks dayStr).getD []))))]⟩⟩ := by
  have hrange : ¬ (d < 1 ∨ d > 7) := by omega
  have hn := recordOf_name c name r hr
  unfold recordOf at hr
  unfold getUserDayTasks
  simp only [hd, hrange, if_false, FindOne, hr, Doc.decode, hn]
  cases mapIndex r.tasks dayStr <;> rfl

/-! ## Day-scoped endpoints -/

/-- C1: replacing one day's tasks succeeds and leaves the entry at every other
day-key of that name's record as it was; a key that was absent (also when the
record itself was absent) stays absent. -/
theorem updateUserDayTasks_frame (c : Collection) (name dayStr : String) (d : Int)
    (t : List String) (k : String)
    (hd : Atoi dayStr = some d) (h1 : 1 ≤ d) (h7 : d ≤ 7) (hk : k ≠ dayStr) :
    (updateUserDayTasks c name dayStr (some ⟨some t⟩)).resp.status = StatusOK ∧
    dayEntry (updateUserDayTasks c name dayStr (some ⟨some t⟩)).store name k
      = dayEntry c name k := by
  rw [updateUserDayTasks_eq c name dayStr d t hd h1 h7]
  exact ⟨rfl, dayEntry_upsert_setDay_other c name dayStr k t hk⟩

theorem updateUserDayTasks_frame_witness :
    (Atoi "3" = some 3 ∧ (1 : Int) ≤ 3 ∧ (3 : Int) ≤ 7 ∧ "2" ≠ "3") ∧
    ((updateUserDayTasks [⟨"Ann", some [("2", some ["walk"]), ("3", some ["read"])]⟩]
        "Ann" "3" (some ⟨some ["swim"]⟩)).resp.status = StatusOK ∧
      dayEntry (updateUserDayTasks [⟨"Ann", some [("2", some ["walk"]), ("3", some ["read"])]⟩]
        "Ann" "3" (some ⟨some ["swim"]⟩)).store "Ann" "2"
        = dayEntry [⟨"Ann", some [("2", some ["walk"]), ("3", some ["read"])]⟩] "Ann" "2") :=
  ⟨by decide,
    updateUserDayTasks_frame [⟨"Ann", some [("2", some ["walk"]), ("3", some ["read"])]⟩]
      "Ann" "3" 3 ["swim"] "2" (by decide) (by decide) (by decide) (by decide)⟩

/-- C3: a day segment that `Atoi` rejects, or that parses outside 1..7, makes
both day-scoped handlers answer 400 without issuing any storage call: the
collection is unchanged and the response does not depend on it, whatever the
name and the body. -/
theorem bad_day_rejected (c c' : Collection) (name dayStr : String)
    (body : Option UpdateDayTasksRequest)
    (h : Atoi dayStr = none ∨ ∃ d, Atoi dayStr = some d ∧ (d < 1 ∨ 7 < d)) :
    ((getUserDayTasks c name dayStr).resp.status = StatusBadRequest ∧
      (getUserDayTasks c name dayStr).ops = [] ∧
      (getUserDayTasks c name dayStr).store = c ∧
      (getUserDayTasks c' name dayStr).resp = (getUserDayTasks c name dayStr).resp) ∧
    ((updateUserDayTasks c name dayStr body).resp.status = StatusBadRequest ∧
      (updateUserDayTasks c name dayStr body).ops = [] ∧
      (updateUserDayTasks c name dayStr body).store = c ∧
      (updateUserDayTasks c' name dayStr body).resp
        = (updateUserDayTasks c name dayStr body).resp) := by
  rcases h with h | ⟨d, hd, hr⟩
  · simp [getUserDayTasks, updateUserDayTasks, h]
  · have hr' : d < 1 ∨ d > 7 := hr
    simp [getUserDayTasks, updateUserDayTasks, hd, hr']

theorem bad_day_rejected_witness :
    Atoi "9" = some 9 ∧
    (getUserDayTasks [⟨"Ann", none⟩] "Ann" "9").resp.status = StatusBadRequest ∧
    (getUserDayTasks [⟨"Ann", none⟩] "Ann" "9").ops = [] ∧
    (updateUserDayTasks [⟨"Ann", none⟩] "Ann" "9" (some ⟨some ["x"]⟩)).ops = [] ∧
    (updateUserDayTasks [⟨"Ann", none⟩] "Ann" "9" (some ⟨some ["x"]⟩)).store
      = [⟨"Ann", none⟩] :=
  have h := bad_day_rejected [⟨"Ann", none⟩] [] "Ann" "9" (some ⟨some ["x"]⟩)
    (Or.inr ⟨9, by decide, by decide⟩)
  ⟨by decide, h.1.1, h.1.2.1, h.2.2.1, h.2.2.2.1⟩

/-- C4: writing a day's tasks and reading the same day back: the write
succeeds, creates the record when the name had none, and the read answers 200
with exactly the written list. -/
theorem day_write_then_read (c : Collection) (name dayStr : String) (d : Int)
    (t : List String) (hd : Atoi dayStr = some d) (h1 : 1 ≤ d) (h7 : d ≤ 7) :
    (updateUserDayTasks c name dayStr (some ⟨some t⟩)).resp.status = StatusOK ∧
    (recordOf c name = none →
      (updateUserDayTasks c name dayStr (some ⟨some t⟩)).store
        = c ++ [⟨name, some [(dayStr, some t)]⟩]) ∧
    (getUserDayTasks (updateUserDayTasks c name dayStr (some ⟨some t⟩)).store name dayStr).resp
      = ⟨StatusOK, [("name", .val (.str name)), ("day", .val (.int d)),
          ("tasks", .val (.slice (some t)))]⟩ := by
  rw [updateUserDayTasks_eq c name dayStr d t hd h1 h7]
  refine ⟨rfl, ?_, ?_⟩
  · intro habs
    simp only [upsert_absent name _ c habs]
    rfl
  · rw [getUserDayTasks_eq _ name dayStr d _ hd h1 h7
      (recordOf_upsert_self name (setDay dayStr t) (fun _ => rfl) c)]
    simp only [mapIndex_setDay, Option.getD_some]

theorem day_write_then_read_witness :
    (Atoi "3" = some 3 ∧ (1 : Int) ≤ 3 ∧ (3 : Int) ≤ 7) ∧
    (updateUserDayTasks [] "Ann" "3" (some ⟨some ["brush teeth", "read"]⟩)).resp.status
      = StatusOK ∧
    (updateUserDayTasks [] "Ann" "3" (some ⟨some ["brush teeth", "read"]⟩)).store
      = [⟨"Ann", some [("3", some ["brush teeth", "read"])]⟩] ∧
    (getUserDayTasks
        (updateUserDayTasks [] "Ann" "3" (some ⟨some ["brush teeth", "read"]⟩)).store
        "Ann" "3").resp
      = ⟨StatusOK, [("name", .val (.str "Ann")), ("day", .val (.int 3)),
          ("tasks", .val (.slice (some ["brush teeth", "read"])))]⟩ :=
  have h := day_write_then_read [] "Ann" "3" 3 ["brush teeth", "read"]
    (by decide) (by decide) (by decide)
  ⟨by decide, h.1, h.2.1 rfl, h.2.2⟩

/-- C5: for an accepted day, when the name has a record whose tasks mapping has
no entry at the requested key (also when it has no tasks mapping at all),
`getUserDayTasks` answers 200 with the empty list. -/
theorem getUserDayTasks_missing_key (c : Collection) (name dayStr : String) (d : Int)
    (hd : Atoi dayStr = some d) (h1 : 1 ≤ d) (h7 : d ≤ 7)
    (hrec : (recordOf c name).isSome = true) (hkey : dayEntry c name dayStr = none) :
    (getUserDayTasks c name dayStr).resp
      = ⟨StatusOK, [("name", .val (.str name)), ("day", .val (.int d)),
          ("tasks", .val (.slice (some [])))]⟩ := by
  cases hr : recordOf c name with
  | none => simp [hr] at hrec
  | some r =>
    rw [getUserDayTasks_eq c name dayStr d r hd h1 h7 hr]
    have hm : mapIndex r.tasks dayStr = none := by
      unfold dayEntry at hkey
      rw [hr] at hkey
      unfold mapIndex
      cases ht : r.tasks with
      | none => rfl
      | some m =>
        simp only [ht] at hkey
        simp [hkey]
    simp [hm]

theorem getUserDayTasks_missing_key_witness :
    (Atoi "5" = some 5 ∧ (1 : Int) ≤ 5 ∧ (5 : Int) ≤ 7 ∧
      (recordOf [⟨"Ann", some [("3", some ["read"])]⟩] "Ann").isSome = true ∧
      dayEntry [⟨"Ann", some [("3", some ["read"])]⟩] "Ann" "5" = none) ∧
    (getUserDayTasks [⟨"Ann", some [("3", some ["read"])]⟩] "Ann" "5").resp
      = ⟨StatusOK, [("name", .val (.str "Ann")), ("day", .val (.int 5)),
          ("tasks", .val (.slice (some [])))]⟩ :=
  ⟨by decide,
    getUserDayTasks_missing_key [⟨"Ann", some [("3", some ["read"])]⟩] "Ann" "5" 5
      (by decide) (by decide) (by decide) (by decide) (by decide)⟩

/-! ## Whole-schedule endpoint -/

theorem updateUserTasks_some_eq (c : Collection) (name : String) (m : TaskMap)
    (hname : name ≠ "") :
    updateUserTasks c (some ⟨name, some m⟩)
      = ⟨upsert name (setTasks m) c,
          [.FindOneAndUpdate name [("tasks", .doc (some m))]],
          ⟨StatusOK, [("message", .val (.str "用户数据更新成功")),
            ("user", .obj [("name", .str name), ("tasks", .tasks (some m))])]⟩⟩ := by
  have hf : ∀ x : Doc, applySets x [("tasks", .doc (some m))] = .ok (setTasks m x) := by
    intro x
    simp [applySets, applySet_tasks]
  unfold updateUserTasks
  simp only [hname, if_false]
  rw [FindOneAndUpdate_eq name _ (setTasks m) hf]
  simp only [Doc.decode]
  have : (setTasks m ((recordOf c name).getD ⟨name, none⟩)).name = name :=
    getD_record_name c name
  rw [this]
  rfl

theorem updateUserTasks_none_eq (c : Collection) (name : String) (hname : name ≠ "") :
    updateUserTasks c (some ⟨name, none⟩)
      = ⟨upsert name id c, [.FindOneAndUpdate name []],
          ⟨StatusOK, [("message", .val (.str "用户数据更新成功")),
            ("user", .obj [("name", .str name),
              ("tasks", .tasks ((recordOf c name).getD ⟨name, none⟩).tasks)])]⟩⟩ := by
  have hf : ∀ x : Doc, applySets x [] = .ok (id x) := fun _ => rfl
  unfold updateUserTasks
  simp only [hname, if_false]
  rw [FindOneAndUpdate_eq name _ id hf]
  simp only [Doc.decode, id]
  rw [getD_record_name c name]

/-- C2: replacing the full schedule of a non-empty name with a provided mapping
`m` succeeds and leaves the record of that name with tasks mapping exactly `m`:
every key reads as in `m`, keys not in `m` are gone, and the response carries
`m`; whether or not the name had a record before. -/
theorem updateUserTasks_replaces (c : Collection) (name : String) (m : TaskMap)
    (hname : name ≠ "") :
    (updateUserTasks c (some ⟨name, some m⟩)).resp
      = ⟨StatusOK, [("message", .val (.str "用户数据更新成功")),
          ("user", .obj [("name", .str name), ("tasks", .tasks (some m))])]⟩ ∧
    (recordOf (updateUserTasks c (some ⟨name, some m⟩)).store name).map Doc.tasks
      = some (some m) ∧
    (∀ k, dayEntry (updateUserTasks c (some ⟨name, some m⟩)).store name k = m.lookup k) := by
  rw [updateUserTasks_some_eq c name m hname]
  have hr := recordOf_upsert_self name (setTasks m) (fun _ => rfl) c
  refine ⟨rfl, ?_, ?_⟩
  · simp only [hr]
    rfl
  · intro k
    simp only [dayEntry, hr]
    rfl

theorem updateUserTasks_replaces_witness :
    "Ann" ≠ "" ∧
    (updateUserTasks [⟨"Ann", some [("1", some ["walk"]), ("2", some ["read"])]⟩]
        (some ⟨"Ann", some [("2", some ["swim"])]⟩)).resp
      = ⟨StatusOK, [("message", .val (.str "用户数据更新成功")),
          ("user", .obj [("name", .str "Ann"), ("tasks", .tasks (some [("2", some ["swim"])]))])]⟩ ∧
    (recordOf (updateUserTasks [⟨"Ann", some [("1", some ["walk"]), ("2", some ["read"])]⟩]
        (some ⟨"Ann", some [("2", some ["swim"])]⟩)).store "Ann").map Doc.tasks
      = some (some [("2", some ["swim"])]) ∧
    dayEntry (updateUserTasks [⟨"Ann", some [("1", some ["walk"]), ("2", some ["read"])]⟩]
        (some ⟨"Ann", some [("2", some ["swim"])]⟩)).store "Ann" "1"
      = List.lookup "1" [("2", some ["swim"])] :=
  have h := updateUserTasks_replaces
    [⟨"Ann", some [("1", some ["walk"]), ("2", some ["read"])]⟩]
    "Ann" [("2", some ["swim"])] (by decide)
  ⟨by decide, h.1, h.2.1, h.2.2 "1"⟩

/-- C6: a replace-full-schedule request whose name is missing or empty is
answered 400 with no storage call and the collection unchanged, whatever tasks
mapping it carries. -/
theorem updateUserTasks_empty_name (c : Collection) (tasks : Option TaskMap) :
    updateUserTasks c (some ⟨"", tasks⟩)
      = ⟨c, [], ⟨StatusBadRequest, errorBody "Name字段是必需的"⟩⟩ := by
  simp [updateUserTasks]

/-- C7: a replace-full-schedule request for a non-empty name that omits tasks
succeeds; when the name has a record the collection is unchanged and the
response carries that record's tasks, and when it has none exactly one record
of that name without tasks is appended. -/
theorem updateUserTasks_omitted (c : Collection) (name : String) (hname : name ≠ "") :
    (updateUserTasks c (some ⟨name, none⟩)).resp.status = StatusOK ∧
    (∀ r, recordOf c name = some r →
      (updateUserTasks c (some ⟨name, none⟩)).store = c ∧
      (updateUserTasks c (some ⟨name, none⟩)).resp.body
        = [("message", .val (.str "用户数据更新成功")),
            ("user", .obj [("name", .str name), ("tasks", .tasks r.tasks)])]) ∧
    (recordOf c name = none →
      (updateUserTasks c (some ⟨name, none⟩)).store = c ++ [⟨name, none⟩] ∧
      (updateUserTasks c (some ⟨name, none⟩)).resp.body
        = [("message", .val (.str "用户数据更新成功")),
            ("user", .obj [("name", .str name), ("tasks", .tasks none)])]) := by
  rw [updateUserTasks_none_eq c name hname]
  refine ⟨rfl, ?_, ?_⟩
  · intro r hr
    exact ⟨upsert_present_id name id c r hr rfl, by simp [hr]⟩
  · intro hr
    exact ⟨upsert_absent name id c hr, by simp [hr]⟩

theorem updateUserTasks_omitted_witness :
    "Bob" ≠ "" ∧
    (updateUserTasks [⟨"Ann", some [("1", some ["walk"])]⟩] (some ⟨"Bob", none⟩)).store
      = [⟨"Ann", some [("1", some ["walk"])]⟩, ⟨"Bob", none⟩] ∧
    (updateUserTasks [⟨"Ann", some [("1", some ["walk"])]⟩] (some ⟨"Ann", none⟩)).store
      = [⟨"Ann", some [("1", some ["walk"])]⟩] :=
  ⟨by decide,
    ((updateUserTasks_omitted [⟨"Ann", some [("1", some ["walk"])]⟩] "Bob" (by decide)).2.2
      (by decide)).1,
    ((updateUserTasks_omitted [⟨"Ann", some [("1", some ["walk"])]⟩] "Ann" (by decide)).2.1
      ⟨"Ann", some [("1", some ["walk"])]⟩ (by decide)).1⟩

/-! ## Listing -/

theorem foldl_entries_lookup_other (n : String) (users : List User)
    (acc : List (String × Json)) (h : ∀ u ∈ users, u.Name ≠ n) :
    (users.foldl (fun result user =>
        assocSet result user.Name (Json.obj [("任务", .tasks user.Tasks)])) acc).lookup n
      = acc.lookup n := by
  induction users generalizing acc with
  | nil => rfl
  | cons u rest ih =>
    simp only [List.foldl_cons]
    rw [ih _ (fun e he => h e (List.mem_cons_of_mem _ he))]
    exact lookup_assocSet_other acc u.Name n _ (Ne.symm (h u (List.mem_cons_self _ _)))

theorem foldl_entries_lookup_last (pre post : List User) (u : User)
    (acc : List (String × Json)) (h : ∀ e ∈ post, e.Name ≠ u.Name) :
    ((pre ++ u :: post).foldl (fun result user =>
        assocSet result user.Name (Json.obj [("任务", .tasks user.Tasks)])) acc).lookup u.Name
      = some (Json.obj [("任务", .tasks u.Tasks)]) := by
  rw [List.foldl_append, List.foldl_cons, foldl_entries_lookup_other u.Name post _ h]
  exact lookup_assocSet_self _ _ _

theorem exists_last_of_name (c : Collection) (n : String) (h : ∃ e ∈ c, e.name = n) :
    ∃ pre d' post, c = pre ++ d' :: post ∧ d'.name = n ∧ ∀ e ∈ post, e.name ≠ n := by
  induction c with
  | nil =>
    obtain ⟨e, he, _⟩ := h
    cases he
  | cons x xs ih =>
    by_cases hex : ∃ e ∈ xs, e.name = n
    · obtain ⟨pre, d', post, hc, hn, hp⟩ := ih hex
      exact ⟨x :: pre, d', post, by simp [hc], hn, hp⟩
    · obtain ⟨e, he, hen⟩ := h
      have hx : x.name = n := by
        rcases List.mem_cons.mp he with h1 | h1
        · rw [← h1]; exact hen
        · exact absurd ⟨e, h1, hen⟩ hex
      exact ⟨[], x, xs, rfl, hx, fun e2 he2 hn2 => hex ⟨e2, he2, hn2⟩⟩

theorem getAllUsers_lookup_last (pre post : Collection) (d : Doc)
    (h : ∀ e ∈ post, e.name ≠ d.name) :
    (getAllUsers (pre ++ d :: post)).resp.body.lookup d.name
      = some (Json.obj [("任务", .tasks d.tasks)]) := by
  have h' : ∀ e ∈ post.map Doc.decode, e.Name ≠ d.decode.Name := by
    intro e he
    obtain ⟨x, hx, rfl⟩ := List.mem_map.mp he
    exact h x hx
  simp only [getAllUsers, Find, List.map_append, List.map_cons]
  exact foldl_entries_lookup_last (pre.map Doc.decode) (post.map Doc.decode) d.decode [] h'

/-- C8, as the code has it: `getAllUsers` answers 200 with a mapping that has,
for every persisted record, an entry keyed by the record's name; the entry is
an object with the single field `任务`, holding the tasks mapping of the last
persisted record of that name, which is the record's own tasks mapping when no
later record shares its name. -/
theorem getAllUsers_entries (c : Collection) :
    (getAllUsers c).resp.status = StatusOK ∧
    (∀ d ∈ c, ∃ d' ∈ c, d'.name = d.name ∧
      (getAllUsers c).resp.body.lookup d.name
        = some (Json.obj [("任务", .tasks d'.tasks)])) ∧
    (∀ pre d post, c = pre ++ d :: post → (∀ e ∈ post, e.name ≠ d.name) →
      entryField (getAllUsers c).resp.body d.name "任务" = some (.tasks d.tasks)) := by
  refine ⟨rfl, ?_, ?_⟩
  · intro d hd
    obtain ⟨pre, d', post, hc, hn, hp⟩ := exists_last_of_name c d.name ⟨d, hd, rfl⟩
    refine ⟨d', by simp [hc], hn, ?_⟩
    rw [hc, ← hn]
    exact getAllUsers_lookup_last pre post d' (by rw [hn]; exact hp)
  · intro pre d post hc hp
    rw [hc]
    unfold entryField
    rw [getAllUsers_lookup_last pre post d hp]
    simp [List.lookup]

theorem getAllUsers_entries_witness :
    entryField (getAllUsers [⟨"Ann", some [("1", some ["walk"])]⟩, ⟨"Bob", none⟩]).resp.body
      "Ann" "任务" = some (.tasks (some [("1", some ["walk"])])) :=
  (getAllUsers_entries [⟨"Ann", some [("1", some ["walk"])]⟩, ⟨"Bob", none⟩]).2.2
    [] ⟨"Ann", some [("1", some ["walk"])]⟩ [⟨"Bob", none⟩] rfl (by decide)

/-- C8 as stated fails: for a collection of one record, the entry of that
record has no field `tasks` (the mapping is under `任务`); and of two records
sharing a name, the tasks mapping of the first is not exposed at all. -/
theorem getAllUsers_tasks_field_counterexample :
    (getAllUsers [⟨"Ann", some [("1", some ["walk"])]⟩]).resp.status = StatusOK ∧
    entryField (getAllUsers [⟨"Ann", some [("1", some ["walk"])]⟩]).resp.body "Ann" "tasks"
      = none ∧
    (getAllUsers [⟨"Ann", some [("1", some ["walk"])]⟩, ⟨"Ann", none⟩]).resp.body
      = [("Ann", .obj [("任务", .tasks none)])] := by
  decide

/-! ## Defects -/

theorem upsert_names (name : String) (f : Doc → Doc) (hf : ∀ d, (f d).name = d.name)
    (hname : name ≠ "") (c : Collection) (h : NamesNonEmpty c) :
    NamesNonEmpty (upsert name f c) := by
  induction c with
  | nil =>
    intro d hd
    simp only [upsert, List.mem_singleton] at hd
    rw [hd, hf]
    exact hname
  | cons x xs ih =>
    have hx : x.name ≠ "" := h x (List.mem_cons_self _ _)
    have hxs : NamesNonEmpty xs := fun e he => h e (List.mem_cons_of_mem _ he)
    intro d hd
    by_cases hn : x.name = name
    · simp only [upsert, hn, if_true, List.mem_cons] at hd
      rcases hd with e | e
      · rw [e, hf]; exact hx
      · exact hxs d e
    · simp only [upsert, hn, if_false, List.mem_cons] at hd
      rcases hd with e | e
      · rw [e]; exact hx
      · exact ih hxs d e

/-- The guarded sibling: `updateUserTasks` keeps every persisted name non-empty,
whatever the request. -/
theorem updateUserTasks_names (c : Collection) (body : Option UpdateTasksRequest)
    (h : NamesNonEmpty c) : NamesNonEmpty (updateUserTasks c body).store := by
  cases body with
  | none => exact h
  | some req =>
    obtain ⟨name, tasks⟩ := req
    by_cases hname : name = ""
    · subst hname
      simpa [updateUserTasks] using h
    · cases tasks with
      | none =>
        rw [updateUserTasks_none_eq c name hname]
        exact upsert_names name id (fun _ => rfl) hname c h
      | some m =>
        rw [updateUserTasks_some_eq c name m hname]
        exact upsert_names name (setTasks m) (fun _ => rfl) hname c h

/-- C9 at the failing input: on a collection whose names are all non-empty,
`updateUserDayTasks` with the empty `name` path parameter answers 200 and
inserts a record whose name is the empty string. -/
theorem updateUserDayTasks_inserts_empty_name :
    NamesNonEmpty [⟨"Ann", none⟩] ∧
    (updateUserDayTasks [⟨"Ann", none⟩] "" "3" (some ⟨some ["read"]⟩)).resp.status
      = StatusOK ∧
    (updateUserDayTasks [⟨"Ann", none⟩] "" "3" (some ⟨some ["read"]⟩)).store
      = [⟨"Ann", none⟩, ⟨"", some [("3", some ["read"])]⟩] ∧
    ¬ NamesNonEmpty (updateUserDayTasks [⟨"Ann", none⟩] "" "3" (some ⟨some ["read"]⟩)).store := by
  decide

/-- C10 at the failing input: the segment `03` is accepted as day 3, yet the
write goes to the key `03`, and a read of day `3` finds nothing there. -/
theorem day_key_is_path_segment :
    Atoi "03" = some 3 ∧ Atoi "3" = some 3 ∧
    (updateUserDayTasks [] "Ann" "03" (some ⟨some ["read"]⟩)).resp
      = ⟨StatusOK, [("message", .val (.str "任务更新成功")),
          ("user", .obj [("name", .str "Ann"), ("day", .int 3),
            ("tasks", .slice (some ["read"]))])]⟩ ∧
    (updateUserDayTasks [] "Ann" "03" (some ⟨some ["read"]⟩)).store
      = [⟨"Ann", some [("03", some ["read"])]⟩] ∧
    (getUserDayTasks (updateUserDayTasks [] "Ann" "03" (some ⟨some ["read"]⟩)).store
        "Ann" "3").resp
      = ⟨StatusOK, [("name", .val (.str "Ann")), ("day", .val (.int 3)),
          ("tasks", .val (.slice (some [])))]⟩ := by
  decide

end SchedulerGo
